import Mathlib

/-!
Shallow embedding of the LakshayAI skill-extraction and market-gap analysis
engine, together with proofs about the embedded operations.

The embedding follows the Python sources:
* `backend/adzuna_skill_analyzer.py` — market aggregation
  (`analyze_role_skills`), pattern extraction
  (`extract_skills_with_patterns`), priority tiers (`get_skill_priority`),
  gap analysis (`compare_user_skills_to_market`) and gap severity
  (`calculate_gap_severity`);
* `backend/ml_service.py` — `extract_skills`;
* `backend/simple_bert_service.py` — the no-trained-model analysis path
  (`analyze_resume_enhanced`, `get_fallback_analysis`) and its helpers.

Python floats are modelled as `ℚ`; Python `round(x, 1)` is modelled with
Mathlib's `round` (the two agree away from exact .x5 ties, which the
statements below avoid).  Python strings are `String`, scanned as
`List Char`.  `None` is `Option.none`; a Python function that can raise is
embedded with an `Except` result.
-/

namespace LakshayAI

/-- Shorthand turning a string literal into its character list. -/
def lc (s : String) : List Char := s.toList

/-- Embedding of Python `str.lower()` at the character-list level
    (ASCII-faithful). -/
def lowerL (l : List Char) : List Char := l.map Char.toLower

/-- Embedding of the Python substring test `a in b` on strings:
    `True` iff `a` is a contiguous substring of `b` (the empty string is a
    substring of everything). -/
def pyIn (a : List Char) : List Char → Bool
  | [] => a.isEmpty
  | c :: t => a.isPrefixOf (c :: t) || pyIn a t

theorem pyIn_true_iff (a b : List Char) : pyIn a b = true ↔ a <:+: b := by
  induction b with
  | nil =>
    simp only [pyIn, List.isEmpty_iff]
    exact ⟨fun h => h ▸ List.infix_rfl, fun h => List.infix_nil.mp h⟩
  | cons c t ih =>
    simp only [pyIn, Bool.or_eq_true, List.isPrefixOf_iff_prefix, ih]
    constructor
    · rintro (h | h)
      · exact h.isInfix
      · exact List.infix_cons h
    · intro h
      rcases List.infix_cons_iff.mp h with h | h
      · exact Or.inl h
      · exact Or.inr h

/-- The four priority strings used by the analyzer
    (`'critical'`, `'high'`, `'medium'`, `'low'`). -/
inductive Priority
  | critical
  | high
  | medium
  | low
deriving Repr, DecidableEq

/-- Embedding of `AdzunaSkillAnalyzer.get_skill_priority`: the tier is
    decided from `percentage = frequency / total_jobs * 100`. -/
def get_skill_priority (frequency total_jobs : ℕ) : Priority :=
  let percentage : ℚ := ((frequency : ℚ) / (total_jobs : ℚ)) * 100
  if 50 ≤ percentage then .critical
  else if 30 ≤ percentage then .high
  else if 15 ≤ percentage then .medium
  else .low

/-- Embedding of `AdzunaSkillAnalyzer.calculate_gap_severity`, applied to the
    `percentage` and `priority` fields of a market-skill record. -/
def calculate_gap_severity (percentage : ℚ) (priority : Priority) : Priority :=
  if priority = .critical ∨ 70 ≤ percentage then .critical
  else if priority = .high ∨ 40 ≤ percentage then .high
  else if priority = .medium ∨ 20 ≤ percentage then .medium
  else .low

/-- Python `round(x, 1)` on ℚ: round `10 * x` to the nearest integer and
    divide by ten.  (CPython rounds float ties to even; the two agree at
    every non-tie, and all concrete values used below are non-ties.) -/
def round1 (x : ℚ) : ℚ := ((round (10 * x) : ℤ) : ℚ) / 10

theorem round1_le (x : ℚ) : round1 x ≤ x + 1 / 20 := by
  have h := round_le_add_half (10 * x)
  unfold round1
  rw [div_le_iff₀ (by norm_num : (0:ℚ) < 10)]
  linarith

theorem le_round1 (x : ℚ) : x - 1 / 20 ≤ round1 x := by
  have h := abs_sub_round (10 * x)
  rw [abs_le] at h
  unfold round1
  rw [le_div_iff₀ (by norm_num : (0:ℚ) < 10)]
  linarith

theorem round1_mono {x y : ℚ} (h : x ≤ y) : round1 x ≤ round1 y := by
  unfold round1
  have h1 : round (10 * x) ≤ round (10 * y) := by
    rw [round_eq, round_eq]
    exact Int.floor_le_floor (by linarith)
  have h2 : ((round (10 * x) : ℤ) : ℚ) ≤ ((round (10 * y) : ℤ) : ℚ) := by
    exact_mod_cast h1
  linarith

theorem round1_zero : round1 0 = 0 := by
  unfold round1
  rw [show ((10:ℚ) * 0) = ((0 : ℤ) : ℚ) by norm_num, round_intCast]
  norm_num

theorem round1_hundred : round1 100 = 100 := by
  unfold round1
  rw [show ((10:ℚ) * 100) = ((1000 : ℤ) : ℚ) by norm_num, round_intCast]
  norm_num

theorem get_skill_priority_eq (f n : ℕ) :
    get_skill_priority f n =
      (if 50 ≤ ((f : ℚ) / (n : ℚ)) * 100 then .critical
       else if 30 ≤ ((f : ℚ) / (n : ℚ)) * 100 then .high
       else if 15 ≤ ((f : ℚ) / (n : ℚ)) * 100 then .medium
       else .low) := rfl

/-- Claim C5: the priority tier is a pure function of the prevalence
    percentage `p = f / n * 100`: `critical` iff `p ≥ 50`, `high` iff
    `30 ≤ p < 50`, `medium` iff `15 ≤ p < 30`, `low` iff `p < 15`,
    boundaries included exactly. -/
theorem get_skill_priority_tiers (f n : ℕ) (hn : 1 ≤ n) :
    (get_skill_priority f n = .critical ↔ 50 ≤ ((f : ℚ) / (n : ℚ)) * 100) ∧
    (get_skill_priority f n = .high ↔
      30 ≤ ((f : ℚ) / (n : ℚ)) * 100 ∧ ((f : ℚ) / (n : ℚ)) * 100 < 50) ∧
    (get_skill_priority f n = .medium ↔
      15 ≤ ((f : ℚ) / (n : ℚ)) * 100 ∧ ((f : ℚ) / (n : ℚ)) * 100 < 30) ∧
    (get_skill_priority f n = .low ↔ ((f : ℚ) / (n : ℚ)) * 100 < 15) ∧
    (∀ f2 n2 : ℕ, ((f : ℚ) / (n : ℚ)) * 100 = ((f2 : ℚ) / (n2 : ℚ)) * 100 →
      get_skill_priority f n = get_skill_priority f2 n2) :=
  by
  refine ⟨?_, ?_, ?_, ?_, ?_⟩
  · rw [get_skill_priority_eq]
    split_ifs with h1 h2 h3 <;> simp_all <;> linarith
  · rw [get_skill_priority_eq]
    split_ifs with h1 h2 h3 <;> simp_all <;>
      first | linarith | (intro h; linarith) | (constructor <;> linarith)
  · rw [get_skill_priority_eq]
    split_ifs with h1 h2 h3 <;> simp_all <;>
      first | linarith | (intro h; linarith) | (constructor <;> linarith)
  · rw [get_skill_priority_eq]
    split_ifs with h1 h2 h3 <;> simp_all <;> linarith
  · intro f2 n2 hEq
    rw [get_skill_priority_eq, get_skill_priority_eq, ← hEq]

/-- Witness for C5: the hypothesis `1 ≤ n` is satisfiable (boundary case
    `10/20 = 50%` lands exactly in the `critical` tier). -/
theorem get_skill_priority_tiers_witness :
    1 ≤ 20 ∧ (get_skill_priority 10 20 = .critical ↔
      50 ≤ ((10 : ℚ) / (20 : ℚ)) * 100) :=
  ⟨by decide, (get_skill_priority_tiers 10 20 (by decide)).1⟩

/-- One entry of the `skills_extracted` list built by
    `analyze_role_skills`: skill name, absolute frequency, prevalence
    percentage (rounded to one decimal) and priority tier. -/
structure SkillEntry where
  skill : String
  frequency : ℕ
  percentage : ℚ
  priority : Priority
deriving Repr, DecidableEq

/-- First-occurrence deduplication with an accumulator of already seen
    names: the iteration order of a Python `Counter` built from a list. -/
def dedupSeen (seen : List String) : List String → List String
  | [] => []
  | x :: xs => if x ∈ seen then dedupSeen seen xs else x :: dedupSeen (x :: seen) xs

/-- Embedding of `Counter(all_skills)` as an association list
    `(skill, count)` in first-occurrence order. -/
def skillCounter (allSkills : List String) : List (String × ℕ) :=
  (dedupSeen [] allSkills).map (fun s => (s, allSkills.count s))

/-- `Counter.most_common` orders entries by count, descending (Python sorts
    stably, as does insertion sort). -/
def byFreqDesc (a b : String × ℕ) : Prop := b.2 ≤ a.2

instance : DecidableRel byFreqDesc := fun a b => inferInstanceAs (Decidable (b.2 ≤ a.2))

instance : IsTotal (String × ℕ) byFreqDesc := ⟨fun a b => le_total b.2 a.2⟩

instance : IsTrans (String × ℕ) byFreqDesc := ⟨fun _ _ _ h1 h2 => le_trans h2 h1⟩

/-- Embedding of `Counter.most_common(n)`. -/
def most_common (n : ℕ) (counter : List (String × ℕ)) : List (String × ℕ) :=
  (List.insertionSort byFreqDesc counter).take n

/-- `min_mentions = max(1, job_count // 20)` — the 5% prevalence floor. -/
def minMentions (jobCount : ℕ) : ℕ := max 1 (jobCount / 20)

/-- One comprehension step of `analyze_role_skills`: build the skill dict
    (name, frequency, rounded percentage, priority) from a counter entry. -/
def mkSkillEntry (jobCount : ℕ) (p : String × ℕ) : SkillEntry :=
  { skill := p.1
    frequency := p.2
    percentage := round1 (((p.2 : ℚ) / (jobCount : ℚ)) * 100)
    priority := get_skill_priority p.2 jobCount }

def technical_keywords : List String :=
  ["python", "sql", "java", "javascript", "r", "scala", "programming"]

def tools_keywords : List String :=
  ["tableau", "power bi", "excel", "snowflake", "aws", "azure"]

def soft_keywords : List String :=
  ["communication", "leadership", "teamwork", "presentation"]

def data_keywords : List String :=
  ["analytics", "data", "statistics", "modeling", "etl", "reporting"]

def business_keywords : List String :=
  ["strategy", "stakeholder", "requirements", "project management"]

/-- The if/elif chain of `categorize_skills`, as the index 0–4 of the bucket
    a skill lands in (0 technical, 1 tools, 2 soft, 3 data, 4 business;
    unclear skills default to technical = 0). -/
def skillCategoryBucket (skill : String) : ℕ :=
  let s := lowerL (lc skill)
  if technical_keywords.any (fun k => pyIn (lc k) s) then 0
  else if tools_keywords.any (fun k => pyIn (lc k) s) then 1
  else if soft_keywords.any (fun k => pyIn (lc k) s) then 2
  else if data_keywords.any (fun k => pyIn (lc k) s) then 3
  else if business_keywords.any (fun k => pyIn (lc k) s) then 4
  else 0

structure SkillCategories where
  technical : List SkillEntry
  tools : List SkillEntry
  soft_skills : List SkillEntry
  data_analysis : List SkillEntry
  business : List SkillEntry
deriving Repr, DecidableEq

/-- Embedding of `AdzunaSkillAnalyzer.categorize_skills` (appending each
    skill to the bucket its keyword test selects preserves list order, so
    each bucket is a filter of the input). -/
def categorize_skills (skills : List SkillEntry) : SkillCategories :=
  { technical := skills.filter (fun e => skillCategoryBucket e.skill == 0)
    tools := skills.filter (fun e => skillCategoryBucket e.skill == 1)
    soft_skills := skills.filter (fun e => skillCategoryBucket e.skill == 2)
    data_analysis := skills.filter (fun e => skillCategoryBucket e.skill == 3)
    business := skills.filter (fun e => skillCategoryBucket e.skill == 4) }

/-- The fields of the dict returned by `analyze_role_skills` that later
    stages consume (`success`, `target_role`, `jobs_analyzed`,
    `skills_extracted`), plus the derived presentation fields. -/
structure MarketAnalysis where
  success : Bool
  target_role : String
  jobs_analyzed : ℕ
  skills_extracted : List SkillEntry
  top_skills : List String
  skill_categories : SkillCategories
deriving Repr, DecidableEq

/-- Embedding of the aggregation core of
    `AdzunaSkillAnalyzer.analyze_role_skills`.  A job posting is represented
    by the (de-duplicated) list of skills extracted from it; the Adzuna
    fetch itself is outside the embedding.  The source accumulates
    `all_skills` by extending with each job's skill list and sets
    `job_count = len(jobs)`. -/
def analyze_role_skills (target_role : String)
    (jobSkills : List (List String)) : MarketAnalysis :=
  let job_count := jobSkills.length
  let all_skills := jobSkills.flatten
  let frequent_skills :=
    ((most_common 50 (skillCounter all_skills)).filter
      (fun p => minMentions job_count ≤ p.2)).map (mkSkillEntry job_count)
  { success := true
    target_role := target_role
    jobs_analyzed := job_count
    skills_extracted := frequent_skills
    top_skills := (frequent_skills.take 15).map (fun e => e.skill)
    skill_categories := categorize_skills frequent_skills }

theorem mem_dedupSeen (l : List String) : ∀ (seen : List String) (s : String),
    s ∈ dedupSeen seen l ↔ s ∈ l ∧ s ∉ seen := by
  induction l with
  | nil => simp [dedupSeen]
  | cons x xs ih =>
    intro seen s
    by_cases hx : x ∈ seen
    · rw [dedupSeen, if_pos hx, ih]
      simp only [List.mem_cons]
      constructor
      · rintro ⟨hs, hn⟩
        exact ⟨Or.inr hs, hn⟩
      · rintro ⟨rfl | hs, hn⟩
        · exact absurd hx hn
        · exact ⟨hs, hn⟩
    · rw [dedupSeen, if_neg hx]
      simp only [List.mem_cons, ih]
      constructor
      · rintro (rfl | ⟨hs, hn⟩)
        · exact ⟨Or.inl rfl, hx⟩
        · exact ⟨Or.inr hs, fun hc => hn (Or.inr hc)⟩
      · rintro ⟨rfl | hs, hn⟩
        · exact Or.inl rfl
        · by_cases hsx : s = x
          · exact Or.inl hsx
          · exact Or.inr ⟨hs, by simp [List.mem_cons, hsx, hn]⟩

theorem skillCounter_snd {l : List String} {p : String × ℕ}
    (h : p ∈ skillCounter l) : p.2 = l.count p.1 := by
  rcases List.mem_map.mp h with ⟨s, _, rfl⟩
  rfl

theorem skillCounter_mem_of_mem {l : List String} {s : String} (h : s ∈ l) :
    (s, l.count s) ∈ skillCounter l := by
  exact List.mem_map.mpr ⟨s, (mem_dedupSeen l [] s).mpr ⟨h, by simp⟩, rfl⟩

theorem most_common_subset {n : ℕ} {c : List (String × ℕ)} {p : String × ℕ}
    (h : p ∈ most_common n c) : p ∈ c :=
  (List.perm_insertionSort byFreqDesc c).subset ((List.take_sublist n _).subset h)

theorem analyze_skills_extracted (role : String) (jobSkills : List (List String)) :
    (analyze_role_skills role jobSkills).skills_extracted =
      ((most_common 50 (skillCounter jobSkills.flatten)).filter
        (fun p => minMentions jobSkills.length ≤ p.2)).map
        (mkSkillEntry jobSkills.length) := rfl

/-- Which names land in `skills_extracted`: exactly those whose counter pair
    both survives `most_common(50)` and meets the prevalence floor. -/
theorem analyze_skills_mem_iff (role : String) (jobSkills : List (List String))
    (s : String) :
    (∃ e ∈ (analyze_role_skills role jobSkills).skills_extracted, e.skill = s) ↔
      ((s, jobSkills.flatten.count s) ∈
          most_common 50 (skillCounter jobSkills.flatten) ∧
        minMentions jobSkills.length ≤ jobSkills.flatten.count s) := by
  rw [analyze_skills_extracted]
  constructor
  · rintro ⟨e, he, rfl⟩
    rcases List.mem_map.mp he with ⟨p, hpf, rfl⟩
    rcases List.mem_filter.mp hpf with ⟨hpm, hfloor⟩
    have hsnd : p.2 = jobSkills.flatten.count p.1 :=
      skillCounter_snd (most_common_subset hpm)
    have hp : p = ((mkSkillEntry jobSkills.length p).skill,
        jobSkills.flatten.count (mkSkillEntry jobSkills.length p).skill) := by
      cases p
      simp only [mkSkillEntry] at hsnd ⊢
      rw [← hsnd]
    constructor
    · rw [← hp]; exact hpm
    · have := of_decide_eq_true hfloor
      rw [hsnd] at this
      exact this
  · rintro ⟨hmem, hfloor⟩
    refine ⟨mkSkillEntry jobSkills.length (s, jobSkills.flatten.count s),
      List.mem_map.mpr ⟨(s, jobSkills.flatten.count s),
        List.mem_filter.mpr ⟨hmem, by simpa using hfloor⟩, rfl⟩, rfl⟩

theorem analyze_jobs_analyzed (role : String) (jobSkills : List (List String)) :
    (analyze_role_skills role jobSkills).jobs_analyzed = jobSkills.length := rfl

theorem count_flatten_le_length {jobSkills : List (List String)}
    (hnd : ∀ l ∈ jobSkills, l.Nodup) (s : String) :
    jobSkills.flatten.count s ≤ jobSkills.length := by
  rw [List.count_flatten]
  have h1 : ∀ x ∈ jobSkills.map (List.count s), x ≤ 1 := by
    intro x hx
    rcases List.mem_map.mp hx with ⟨l, hl, rfl⟩
    exact List.nodup_iff_count_le_one.mp (hnd l hl) s
  have h2 := List.sum_le_card_nsmul (jobSkills.map (List.count s)) 1 h1
  simpa using h2

/-- Claim C3: for a batch with at least one posting, a skill appears in the
    produced profile iff its counter pair is among `most_common(50)` and its
    frequency meets the floor `max(1, jobs_analyzed / 20)`; no entry below
    the floor is ever included. -/
theorem profile_membership_floor (role : String) (jobSkills : List (List String))
    (hn : 1 ≤ jobSkills.length) :
    (∀ s : String,
      (∃ e ∈ (analyze_role_skills role jobSkills).skills_extracted, e.skill = s) ↔
        ((s, jobSkills.flatten.count s) ∈
            most_common 50 (skillCounter jobSkills.flatten) ∧
          minMentions jobSkills.length ≤ jobSkills.flatten.count s)) ∧
    (∀ e ∈ (analyze_role_skills role jobSkills).skills_extracted,
      minMentions jobSkills.length ≤ e.frequency) := by
  refine ⟨fun s => analyze_skills_mem_iff role jobSkills s, ?_⟩
  intro e he
  rw [analyze_skills_extracted] at he
  rcases List.mem_map.mp he with ⟨p, hpf, rfl⟩
  exact of_decide_eq_true (List.mem_filter.mp hpf).2

/-- Witness for C3: its hypothesis holds for a concrete 3-posting batch. -/
theorem profile_membership_floor_witness :
    1 ≤ ([["SQL"], ["SQL"], ["Python"]] : List (List String)).length ∧
    (∀ e ∈ (analyze_role_skills "Business Intelligence"
        [["SQL"], ["SQL"], ["Python"]]).skills_extracted,
      minMentions ([["SQL"], ["SQL"], ["Python"]] : List (List String)).length ≤
        e.frequency) :=
  ⟨by decide,
    (profile_membership_floor "Business Intelligence"
      [["SQL"], ["SQL"], ["Python"]] (by decide)).2⟩

/-- Amended claim C4 (the rounding to one decimal applied by the source is
    made explicit): every profile entry has
    `percentage = round1(frequency / jobs_analyzed * 100)`, the percentage
    lies in `[0, 100]`, the list is sorted by frequency descending and holds
    at most 50 entries. -/
theorem profile_entry_invariants (role : String) (jobSkills : List (List String))
    (hn : 1 ≤ jobSkills.length) (hnd : ∀ l ∈ jobSkills, l.Nodup) :
    (∀ e ∈ (analyze_role_skills role jobSkills).skills_extracted,
      e.percentage = round1 (((e.frequency : ℚ) / (jobSkills.length : ℚ)) * 100) ∧
      0 ≤ e.percentage ∧ e.percentage ≤ 100 ∧ e.frequency ≤ jobSkills.length) ∧
    List.Pairwise (fun a b : SkillEntry => b.frequency ≤ a.frequency)
      (analyze_role_skills role jobSkills).skills_extracted ∧
    (analyze_role_skills role jobSkills).skills_extracted.length ≤ 50 := by
  have hlen : (0 : ℚ) < (jobSkills.length : ℚ) := by
    have : (1 : ℚ) ≤ (jobSkills.length : ℚ) := by exact_mod_cast hn
    linarith
  refine ⟨?_, ?_, ?_⟩
  · intro e he
    rw [analyze_skills_extracted] at he
    rcases List.mem_map.mp he with ⟨p, hpf, rfl⟩
    have hple : p.2 ≤ jobSkills.length := by
      have hc := skillCounter_snd (most_common_subset (List.mem_filter.mp hpf).1)
      rw [hc]
      exact count_flatten_le_length hnd p.1
    have hx0 : (0 : ℚ) ≤ ((p.2 : ℚ) / (jobSkills.length : ℚ)) * 100 := by positivity
    have hx100 : ((p.2 : ℚ) / (jobSkills.length : ℚ)) * 100 ≤ 100 := by
      have hpq : (p.2 : ℚ) ≤ (jobSkills.length : ℚ) := by exact_mod_cast hple
      have h1 : (p.2 : ℚ) / (jobSkills.length : ℚ) ≤ 1 :=
        div_le_one_of_le hpq (le_of_lt hlen)
      linarith
    refine ⟨rfl, ?_, ?_, hple⟩
    · calc (0 : ℚ) = round1 0 := round1_zero.symm
      _ ≤ round1 (((p.2 : ℚ) / (jobSkills.length : ℚ)) * 100) := round1_mono hx0
    · calc round1 (((p.2 : ℚ) / (jobSkills.length : ℚ)) * 100)
          ≤ round1 100 := round1_mono hx100
      _ = 100 := round1_hundred
  · rw [analyze_skills_extracted]
    refine List.pairwise_map.mpr ?_
    have hs : List.Pairwise byFreqDesc
        (List.insertionSort byFreqDesc (skillCounter jobSkills.flatten)) :=
      List.sorted_insertionSort byFreqDesc _
    have h1 : List.Pairwise byFreqDesc
        (most_common 50 (skillCounter jobSkills.flatten)) :=
      List.Pairwise.sublist (List.take_sublist _ _) hs
    have h2 : List.Pairwise byFreqDesc
        ((most_common 50 (skillCounter jobSkills.flatten)).filter
          (fun p => minMentions jobSkills.length ≤ p.2)) :=
      List.Pairwise.sublist (List.filter_sublist _) h1
    exact h2.imp (fun hab => hab)
  · rw [analyze_skills_extracted, List.length_map]
    calc ((most_common 50 (skillCounter jobSkills.flatten)).filter
          (fun p => minMentions jobSkills.length ≤ p.2)).length
        ≤ (most_common 50 (skillCounter jobSkills.flatten)).length :=
          List.length_filter_le _ _
      _ ≤ 50 := by
          rw [most_common, List.length_take]
          exact min_le_left _ _

/-- Witness for C4: both hypotheses hold for a concrete 3-posting batch. -/
theorem profile_entry_invariants_witness :
    (1 ≤ ([["SQL"], ["SQL"], ["Python"]] : List (List String)).length ∧
      (∀ l ∈ ([["SQL"], ["SQL"], ["Python"]] : List (List String)), l.Nodup)) ∧
    (analyze_role_skills "Business Intelligence"
        [["SQL"], ["SQL"], ["Python"]]).skills_extracted.length ≤ 50 :=
  ⟨⟨by decide, by decide⟩,
    (profile_entry_invariants "Business Intelligence"
      [["SQL"], ["SQL"], ["Python"]] (by decide) (by decide)).2.2⟩

/-- A concrete 3-posting batch: SQL appears in 2 postings, Python in 1. -/
def cexBatch : List (List String) := [["SQL"], ["SQL"], ["Python"]]

theorem cexBatch_pairs :
    ((most_common 50 (skillCounter cexBatch.flatten)).filter
      (fun p => minMentions cexBatch.length ≤ p.2)) =
      [("SQL", 2), ("Python", 1)] := by decide

/-- Counterexample to C4 as stated: on the `cexBatch` profile the stored
    percentage of SQL is `round(2/3*100, 1) = 66.7`, not the exact
    `frequency / jobs_analyzed * 100 = 200/3 = 66.66…`. -/
theorem profile_entry_invariants_cex :
    ¬ (∀ e ∈ (analyze_role_skills "Business Intelligence" cexBatch).skills_extracted,
        e.percentage =
          ((e.frequency : ℚ) /
            ((analyze_role_skills "Business Intelligence" cexBatch).jobs_analyzed : ℚ))
            * 100) := by
  intro h
  have hmem : mkSkillEntry cexBatch.length ("SQL", 2) ∈
      (analyze_role_skills "Business Intelligence" cexBatch).skills_extracted := by
    rw [analyze_skills_extracted, cexBatch_pairs]
    exact List.mem_map.mpr ⟨("SQL", 2), by simp, rfl⟩
  have heq := h _ hmem
  rw [analyze_jobs_analyzed] at heq
  simp only [mkSkillEntry, cexBatch, List.length_cons, List.length_nil] at heq
  norm_num [round1, round_eq] at heq

/-- One element of the internal `matched_skills` list of
    `compare_user_skills_to_market`. -/
structure MatchedSkill where
  skill : String
  market_demand : ℚ
  priority : Priority
  frequency : ℕ
deriving Repr, DecidableEq

/-- One element of the internal `missing_skills` list.  The Python
    `description` f-string interpolates a percentage and the target role;
    the two interpolated data are kept in place of the formatted text. -/
structure MissingSkill where
  skill : String
  market_demand : ℚ
  priority : Priority
  gap_severity : Priority
  description_pct : ℚ
  description_role : String
deriving Repr, DecidableEq

/-- `any(user_skill in skill_name or skill_name in user_skill for ...)`
    over the lower-cased candidate skills. -/
def userHasSkill (usersLower : List (List Char)) (skillNameLower : List Char) : Bool :=
  usersLower.any (fun u => pyIn u skillNameLower || pyIn skillNameLower u)

/-- The internal `matched_skills` list built by the comparison loop
    (a single pass appending to one of two lists, i.e. a filter). -/
def matched_skills (user_skills : List String)
    (market_skills : List SkillEntry) : List MatchedSkill :=
  let usersLower := user_skills.map (fun s => lowerL (lc s))
  (market_skills.filter (fun ms => userHasSkill usersLower (lowerL (lc ms.skill)))).map
    (fun ms =>
      { skill := ms.skill
        market_demand := ms.percentage
        priority := ms.priority
        frequency := ms.frequency })

/-- The internal `missing_skills` list built by the comparison loop. -/
def missing_skills (target_role : String) (user_skills : List String)
    (market_skills : List SkillEntry) : List MissingSkill :=
  let usersLower := user_skills.map (fun s => lowerL (lc s))
  (market_skills.filter
      (fun ms => !userHasSkill usersLower (lowerL (lc ms.skill)))).map
    (fun ms =>
      { skill := ms.skill
        market_demand := ms.percentage
        priority := ms.priority
        gap_severity := calculate_gap_severity ms.percentage ms.priority
        description_pct := ms.percentage
        description_role := target_role })

/-- The `readiness_score` local variable before the final one-decimal
    rounding: `matched_weight / total_market_weight * 100`, guarded to `0`
    when the total weight is not positive. -/
def readiness_raw (user_skills : List String)
    (market_skills : List SkillEntry) : ℚ :=
  let total := (market_skills.map (fun s => s.percentage)).sum
  let matchedW :=
    ((matched_skills user_skills market_skills).map (fun s => s.market_demand)).sum
  if 0 < total then matchedW / total * 100 else 0

structure LearningPath where
  skill : String
  learning_resources : List String
  estimated_time : String
  difficulty : String
  priority : Priority
  market_demand : ℚ
deriving Repr, DecidableEq

/-- Embedding of `AdzunaSkillAnalyzer.generate_recommendations`. -/
def generate_recommendations (missing : List MissingSkill) : List LearningPath :=
  missing.map (fun sk =>
    let name := lowerL (lc sk.skill)
    if (["sql", "database", "query"].any (fun k => pyIn (lc k) name)) then
      { skill := sk.skill
        learning_resources := ["SQL Tutorial on W3Schools",
          "SQLBolt interactive lessons", "Coursera SQL courses"]
        estimated_time := "2-4 weeks"
        difficulty := "beginner to intermediate"
        priority := sk.priority
        market_demand := sk.market_demand }
    else if (["tableau", "power bi", "visualization"].any
        (fun k => pyIn (lc k) name)) then
      { skill := sk.skill
        learning_resources := ["Official Tableau/Power BI training",
          "YouTube tutorials", "Udemy visualization courses"]
        estimated_time := "3-6 weeks"
        difficulty := "intermediate"
        priority := sk.priority
        market_demand := sk.market_demand }
    else if (["python", "programming"].any (fun k => pyIn (lc k) name)) then
      { skill := sk.skill
        learning_resources := ["Python.org tutorial",
          "Codecademy Python course", "Real Python articles"]
        estimated_time := "4-8 weeks"
        difficulty := "beginner to advanced"
        priority := sk.priority
        market_demand := sk.market_demand }
    else
      { skill := sk.skill
        learning_resources := [sk.skill ++ " documentation",
          "Online " ++ sk.skill ++ " courses",
          sk.skill ++ " community tutorials"]
        estimated_time := "2-6 weeks"
        difficulty := "varies"
        priority := sk.priority
        market_demand := sk.market_demand })

/-- The `market_insights` sub-dict; `market_coverage` interpolates the job
    count into a fixed sentence, so the count is kept. -/
structure MarketInsights where
  data_source : String
  total_skills_in_market : ℕ
  analysis_date : String
  market_coverage_jobs : ℕ
deriving Repr, DecidableEq

/-- The dict returned by `compare_user_skills_to_market` on the success
    path. -/
structure CompareResult where
  target_role : String
  jobs_analyzed : ℕ
  readiness_score : ℚ
  skills_matched : ℕ
  skills_missing : ℕ
  matched_skills : List MatchedSkill
  skill_gaps : List MissingSkill
  recommendations : List LearningPath
  market_insights : MarketInsights
deriving Repr, DecidableEq

/-- The success branch of `compare_user_skills_to_market`.  `now` is the
    `datetime.now().isoformat()` timestamp read from the environment at call
    time. -/
def compareOk (user_skills : List String) (ma : MarketAnalysis)
    (now : String) : CompareResult :=
  { target_role := ma.target_role
    jobs_analyzed := ma.jobs_analyzed
    readiness_score := round1 (readiness_raw user_skills ma.skills_extracted)
    skills_matched := (matched_skills user_skills ma.skills_extracted).length
    skills_missing :=
      (missing_skills ma.target_role user_skills ma.skills_extracted).length
    matched_skills := (matched_skills user_skills ma.skills_extracted).take 10
    skill_gaps :=
      (missing_skills ma.target_role user_skills ma.skills_extracted).take 10
    recommendations := generate_recommendations
      ((missing_skills ma.target_role user_skills ma.skills_extracted).take 5)
    market_insights :=
      { data_source := "adzuna_real_jobs"
        total_skills_in_market := ma.skills_extracted.length
        analysis_date := now
        market_coverage_jobs := ma.jobs_analyzed } }

/-- Embedding of `compare_user_skills_to_market`; `none` models the
    `{'success': False}` early return for a failed market analysis. -/
def compare_user_skills_to_market (user_skills : List String)
    (ma : MarketAnalysis) (now : String) : Option CompareResult :=
  if ma.success then some (compareOk user_skills ma now) else none

/-- The lenient containment rule as the spec words it: a candidate entry
    matches a market skill iff one lower-cased string contains the other. -/
def lenientMatch (user_skills : List String) (name : String) : Prop :=
  ∃ u ∈ user_skills,
    lowerL (lc u) <:+: lowerL (lc name) ∨ lowerL (lc name) <:+: lowerL (lc u)

theorem userHasSkill_iff (us : List String) (name : String) :
    userHasSkill (us.map (fun s => lowerL (lc s))) (lowerL (lc name)) = true ↔
      lenientMatch us name := by
  unfold userHasSkill lenientMatch
  rw [List.any_eq_true]
  constructor
  · rintro ⟨u, hu, hor⟩
    rcases List.mem_map.mp hu with ⟨u0, hu0, rfl⟩
    rw [Bool.or_eq_true] at hor
    rcases hor with h | h
    · exact ⟨u0, hu0, Or.inl ((pyIn_true_iff _ _).mp h)⟩
    · exact ⟨u0, hu0, Or.inr ((pyIn_true_iff _ _).mp h)⟩
  · rintro ⟨u0, hu0, h | h⟩
    · refine ⟨lowerL (lc u0), List.mem_map.mpr ⟨u0, hu0, rfl⟩, ?_⟩
      rw [Bool.or_eq_true]
      exact Or.inl ((pyIn_true_iff _ _).mpr h)
    · refine ⟨lowerL (lc u0), List.mem_map.mpr ⟨u0, hu0, rfl⟩, ?_⟩
      rw [Bool.or_eq_true]
      exact Or.inr ((pyIn_true_iff _ _).mpr h)

instance (us : List String) (name : String) : Decidable (lenientMatch us name) :=
  decidable_of_iff _ (userHasSkill_iff us name)

/-- The readiness formula exactly as the spec sentence states it
    (`100 × Σ demand% of matched / Σ demand% of all`, zero-guarded), with
    the matched set given by the lenient containment rule. -/
def specReadinessExact (user_skills : List String)
    (market_skills : List SkillEntry) : ℚ :=
  let total := (market_skills.map (fun s => s.percentage)).sum
  let matchedW :=
    ((market_skills.filter (fun s => lenientMatch user_skills s.skill)).map
      (fun s => s.percentage)).sum
  if 0 < total then 100 * matchedW / total else 0

theorem matched_filter_congr (us : List String) (market : List SkillEntry) :
    market.filter
        (fun ms => userHasSkill (us.map (fun s => lowerL (lc s)))
          (lowerL (lc ms.skill))) =
      market.filter (fun ms => lenientMatch us ms.skill) := by
  refine List.filter_congr ?_
  intro ms _
  rcases Decidable.em (lenientMatch us ms.skill) with h | h
  · rw [(userHasSkill_iff us ms.skill).mpr h, decide_eq_true h]
  · rw [decide_eq_false h]
    by_contra hb
    exact h ((userHasSkill_iff us ms.skill).mp (by simpa using hb))

theorem matched_demand_sum (us : List String) (market : List SkillEntry) :
    ((matched_skills us market).map (fun s => s.market_demand)).sum =
      ((market.filter (fun s => lenientMatch us s.skill)).map
        (fun s => s.percentage)).sum := by
  rw [matched_skills]
  rw [List.map_map, matched_filter_congr us market]
  rfl

theorem readiness_raw_eq_spec (us : List String) (market : List SkillEntry) :
    readiness_raw us market = specReadinessExact us market := by
  unfold readiness_raw specReadinessExact
  dsimp only
  rw [matched_demand_sum]
  split_ifs with h
  · ring
  · rfl

theorem compareOk_readiness (us : List String) (ma : MarketAnalysis) (now : String) :
    (compareOk us ma now).readiness_score =
      round1 (readiness_raw us ma.skills_extracted) := rfl

/-- Amended claim C1 (the one-decimal rounding applied by the source made
    explicit): the returned readiness score is the spec formula rounded to
    one decimal; it is 0 for an empty candidate list, 0 when the total
    market weight is 0, and 100 when the lenient matches cover every market
    skill and the total weight is positive. -/
theorem gap_readiness_score (us : List String) (ma : MarketAnalysis) (now : String) :
    ((compareOk us ma now).readiness_score =
      round1 (specReadinessExact us ma.skills_extracted)) ∧
    (us = [] → (compareOk us ma now).readiness_score = 0) ∧
    ((ma.skills_extracted.map (fun s => s.percentage)).sum = 0 →
      (compareOk us ma now).readiness_score = 0) ∧
    ((∀ s ∈ ma.skills_extracted, lenientMatch us s.skill) →
      0 < (ma.skills_extracted.map (fun s => s.percentage)).sum →
      (compareOk us ma now).readiness_score = 100) := by
  refine ⟨?_, ?_, ?_, ?_⟩
  · rw [compareOk_readiness, readiness_raw_eq_spec]
  · intro h
    subst h
    rw [compareOk_readiness]
    have hm : matched_skills [] ma.skills_extracted = [] := by
      rw [matched_skills]
      simp [userHasSkill]
    simp only [readiness_raw, hm, List.map_nil, List.sum_nil]
    split_ifs with h
    · rw [zero_div, zero_mul, round1_zero]
    · exact round1_zero
  · intro ht
    rw [compareOk_readiness]
    simp only [readiness_raw, ht]
    rw [if_neg (lt_irrefl 0), round1_zero]
  · intro hall htpos
    have hfull : ma.skills_extracted.filter
        (fun s => lenientMatch us s.skill) = ma.skills_extracted :=
      List.filter_eq_self.mpr (fun a ha => decide_eq_true (hall a ha))
    rw [compareOk_readiness, readiness_raw_eq_spec]
    simp only [specReadinessExact, hfull]
    rw [if_pos htpos, mul_div_assoc,
      div_self (ne_of_gt htpos), mul_one, round1_hundred]

/-- A one-skill successful market analysis used by the C1 witness. -/
def wMA : MarketAnalysis :=
  ⟨true, "Data Analyst", 20, [⟨"SQL", 12, 60, .critical⟩], ["SQL"],
    ⟨[], [], [], [], []⟩⟩

/-- Witness for C1: the hypotheses of its edge-case implications are
    satisfiable — an empty candidate list scores 0 against `wMA`, a fully
    covering candidate list scores 100. -/
theorem gap_readiness_score_witness :
    (compareOk [] wMA "t").readiness_score = 0 ∧
    (compareOk ["sql"] wMA "t").readiness_score = 100 :=
  ⟨(gap_readiness_score [] wMA "t").2.1 rfl,
    (gap_readiness_score ["sql"] wMA "t").2.2.2 (by decide)
      (by norm_num [wMA, List.sum_cons, List.sum_nil])⟩

/-- A concrete market profile (as in the spec scenario): SQL 60%,
    Tableau 20%, Excel 40%. -/
def cexMarketEntries : List SkillEntry :=
  [⟨"SQL", 12, 60, .critical⟩, ⟨"Tableau", 4, 20, .medium⟩,
    ⟨"Excel", 8, 40, .high⟩]

def cexMA : MarketAnalysis :=
  ⟨true, "Business Intelligence", 20, cexMarketEntries,
    ["SQL", "Tableau", "Excel"], ⟨[], [], [], [], []⟩⟩

def cexUsers : List String := ["Excel", "Basic SQL", "Python"]

/-- Counterexample to C1 as stated: with matched weight 100 of total 120
    the exact formula gives 250/3 = 83.33…, but the code returns the
    rounded 83.3. -/
theorem gap_readiness_score_cex :
    (compareOk cexUsers cexMA "2026-01-01").readiness_score ≠
      specReadinessExact cexUsers cexMA.skills_extracted := by
  rw [compareOk_readiness, readiness_raw_eq_spec]
  have hfilter : cexMA.skills_extracted.filter
      (fun s => lenientMatch cexUsers s.skill) =
      [⟨"SQL", 12, 60, .critical⟩, ⟨"Excel", 8, 40, .high⟩] := by decide
  have hsum1 : ((cexMA.skills_extracted.filter
      (fun s => lenientMatch cexUsers s.skill)).map
        (fun s => s.percentage)).sum = 100 := by
    rw [hfilter]
    norm_num [List.map_cons, List.map_nil, List.sum_cons, List.sum_nil]
  have hsum2 : (cexMA.skills_extracted.map (fun s => s.percentage)).sum = 120 := by
    show ((cexMarketEntries).map (fun s => s.percentage)).sum = 120
    norm_num [cexMarketEntries, List.map_cons, List.map_nil,
      List.sum_cons, List.sum_nil]
  simp only [specReadinessExact, hsum1, hsum2]
  rw [if_pos (by norm_num : (0:ℚ) < 120)]
  norm_num [round1, round_eq]

/-- Claim C2: each market skill lands in exactly one of the internal
    matched/missing lists — the two name lists together are a permutation
    of the profile names, a skill is matched iff some candidate string
    contains it or is contained in it (case-insensitively), and missing
    iff not. -/
theorem gap_partition (role : String) (us : List String)
    (market : List SkillEntry) :
    ((((matched_skills us market).map (fun m => m.skill)) ++
      ((missing_skills role us market).map (fun m => m.skill))).Perm
      (market.map (fun s => s.skill))) ∧
    (∀ s : String,
      (∃ m ∈ matched_skills us market, m.skill = s) ↔
        ∃ ms ∈ market, ms.skill = s ∧ lenientMatch us s) ∧
    (∀ s : String,
      (∃ m ∈ missing_skills role us market, m.skill = s) ↔
        ∃ ms ∈ market, ms.skill = s ∧ ¬ lenientMatch us s) := by
  refine ⟨?_, ?_, ?_⟩
  · have h1 : (matched_skills us market).map (fun m => m.skill) =
        (market.filter (fun ms => userHasSkill
          (us.map (fun s => lowerL (lc s))) (lowerL (lc ms.skill)))).map
          (fun ms => ms.skill) := by
      rw [matched_skills, List.map_map]
      rfl
    have h2 : (missing_skills role us market).map (fun m => m.skill) =
        (market.filter (fun ms => !userHasSkill
          (us.map (fun s => lowerL (lc s))) (lowerL (lc ms.skill)))).map
          (fun ms => ms.skill) := by
      rw [missing_skills, List.map_map]
      rfl
    rw [h1, h2, ← List.map_append]
    exact (List.filter_append_perm _ market).map (fun s => s.skill)
  · intro s
    constructor
    · rintro ⟨m, hm, rfl⟩
      rw [matched_skills] at hm
      rcases List.mem_map.mp hm with ⟨ms, hf, rfl⟩
      rcases List.mem_filter.mp hf with ⟨hms, hp⟩
      exact ⟨ms, hms, rfl, (userHasSkill_iff us ms.skill).mp hp⟩
    · rintro ⟨ms, hms, rfl, hl⟩
      refine ⟨_, List.mem_map.mpr ⟨ms, List.mem_filter.mpr
        ⟨hms, (userHasSkill_iff us ms.skill).mpr hl⟩, rfl⟩, rfl⟩
  · intro s
    constructor
    · rintro ⟨m, hm, rfl⟩
      rw [missing_skills] at hm
      rcases List.mem_map.mp hm with ⟨ms, hf, rfl⟩
      rcases List.mem_filter.mp hf with ⟨hms, hp⟩
      refine ⟨ms, hms, rfl, fun hl => ?_⟩
      rw [Bool.not_eq_true', (userHasSkill_iff us ms.skill).mpr hl] at hp
      exact Bool.noConfusion hp
    · rintro ⟨ms, hms, rfl, hl⟩
      refine ⟨_, List.mem_map.mpr ⟨ms, List.mem_filter.mpr ⟨hms, ?_⟩, rfl⟩, rfl⟩
      rw [Bool.not_eq_true']
      by_contra hb
      exact hl ((userHasSkill_iff us ms.skill).mp (by simpa using hb))

/-- Blank out the wall-clock timestamp of a comparison result. -/
def stripDate (r : CompareResult) : CompareResult :=
  { r with market_insights := { r.market_insights with analysis_date := "" } }

/-- Claim C9: apart from the `analysis_date` wall-clock timestamp (which is
    not a `GapReport` field), the output of the gap analysis is a pure
    function of the candidate list and the market analysis — two
    invocations at different times agree field for field. -/
theorem gap_deterministic (us : List String) (ma : MarketAnalysis)
    (t1 t2 : String) :
    Option.map stripDate (compare_user_skills_to_market us ma t1) =
      Option.map stripDate (compare_user_skills_to_market us ma t2) := by
  unfold compare_user_skills_to_market
  cases hs : ma.success
  · simp
  · simp [stripDate, compareOk]

theorem severity_of_round1_tier (f n : ℕ) :
    calculate_gap_severity (round1 (((f : ℚ) / (n : ℚ)) * 100))
      (get_skill_priority f n) = get_skill_priority f n := by
  set p : ℚ := ((f : ℚ) / (n : ℚ)) * 100 with hp
  have h1 := round1_le p
  have h2 := le_round1 p
  rw [get_skill_priority_eq]
  by_cases h50 : 50 ≤ p
  · rw [if_pos h50]
    unfold calculate_gap_severity
    rw [if_pos (Or.inl rfl)]
  · rw [if_neg h50]
    push_neg at h50
    by_cases h30 : 30 ≤ p
    · rw [if_pos h30]
      unfold calculate_gap_severity
      rw [if_neg (by rintro (h | h); exact Priority.noConfusion h; linarith),
        if_pos (Or.inl rfl)]
    · rw [if_neg h30]
      push_neg at h30
      by_cases h15 : 15 ≤ p
      · rw [if_pos h15]
        unfold calculate_gap_severity
        rw [if_neg (by rintro (h | h); exact Priority.noConfusion h; linarith),
          if_neg (by rintro (h | h); exact Priority.noConfusion h; linarith),
          if_pos (Or.inl rfl)]
      · rw [if_neg h15]
        push_neg at h15
        unfold calculate_gap_severity
        rw [if_neg (by rintro (h | h); exact Priority.noConfusion h; linarith),
          if_neg (by rintro (h | h); exact Priority.noConfusion h; linarith),
          if_neg (by rintro (h | h); exact Priority.noConfusion h; linarith)]

/-- Claim C10: for market skills whose priority was derived from their own
    percentage (i.e. entries produced by `analyze_role_skills`), the gap
    severity equals the priority exactly — the extra percentage disjuncts
    in `calculate_gap_severity` never change the outcome. -/
theorem gap_severity_from_profile (role role2 : String)
    (jobSkills : List (List String)) (us : List String) :
    (missing_skills role2 us
        (analyze_role_skills role jobSkills).skills_extracted).map
        (fun m => m.gap_severity) =
      (missing_skills role2 us
        (analyze_role_skills role jobSkills).skills_extracted).map
        (fun m => m.priority) := by
  rw [missing_skills, List.map_map, List.map_map]
  refine List.map_congr_left ?_
  intro ms hms
  have hms2 : ms ∈ (analyze_role_skills role jobSkills).skills_extracted :=
    List.mem_of_mem_filter hms
  rw [analyze_skills_extracted] at hms2
  rcases List.mem_map.mp hms2 with ⟨q, _, rfl⟩
  exact severity_of_round1_tier q.2 jobSkills.length

/-- The `SKILL_PATTERNS` table of `AdvancedMLService.extract_skills`
    (`backend/ml_service.py`). -/
def SKILL_PATTERNS : List (String × List String) :=
  [("Programming Languages",
    ["python", "java", "javascript", "typescript", "c++", "c#", "go", "rust",
     "swift", "kotlin", "php", "ruby", "scala", "r", "matlab", "sql"]),
   ("Web Technologies",
    ["react", "angular", "vue", "nodejs", "express", "django", "flask",
     "spring", "html", "css", "bootstrap", "jquery", "webpack"]),
   ("Databases",
    ["mysql", "postgresql", "mongodb", "redis", "elasticsearch", "oracle",
     "sqlite"]),
   ("Cloud & DevOps",
    ["aws", "azure", "gcp", "docker", "kubernetes", "jenkins", "terraform",
     "ansible"]),
   ("Data Science & ML",
    ["machine learning", "deep learning", "tensorflow", "pytorch",
     "scikit-learn", "pandas", "numpy", "matplotlib", "jupyter", "spark"]),
   ("Mobile Development",
    ["android", "ios", "react native", "flutter", "xamarin"])]

/-- The per-category result of `extract_skills` on a (non-None) string. -/
def ml_extract_skills_ok (t : String) : List (String × List String) :=
  let text_lower := lowerL (lc t)
  SKILL_PATTERNS.map (fun cs =>
    (cs.1, cs.2.filter (fun skill => pyIn (lc skill) text_lower)))

/-- Embedding of `AdvancedMLService.extract_skills`.  The input is
    `Option`-valued to model Python `None`: the very first statement
    `text.lower()` raises `AttributeError` on `None`, embedded as an
    `Except.error`; on every string the function is a pure table scan. -/
def ml_extract_skills (text : Option String) :
    Except String (List (String × List String)) :=
  match text with
  | none => .error "AttributeError"
  | some t => .ok (ml_extract_skills_ok t)

theorem nodup_flatten_filter (p : String → Bool) :
    ∀ (cats : List (String × List String)),
      ((cats.map (fun cs => cs.2)).flatten).Nodup →
      ((cats.map (fun cs => cs.2.filter p)).flatten).Nodup := by
  intro cats
  induction cats with
  | nil => simp
  | cons c rest ih =>
    intro h
    simp only [List.map_cons, List.flatten_cons] at h ⊢
    rw [List.nodup_append] at h ⊢
    obtain ⟨h1, h2, h3⟩ := h
    refine ⟨h1.filter p, ih h2, ?_⟩
    intro a ha hb
    rcases List.mem_flatten.mp hb with ⟨l, hl, hal⟩
    rcases List.mem_map.mp hl with ⟨cs, hcs, rfl⟩
    exact h3 (List.mem_of_mem_filter ha)
      (List.mem_flatten.mpr ⟨cs.2, List.mem_map.mpr ⟨cs, hcs, rfl⟩,
        List.mem_of_mem_filter hal⟩)

theorem SKILL_PATTERNS_flat_nodup :
    ((SKILL_PATTERNS.map (fun cs => cs.2)).flatten).Nodup := by decide

/-- Amended claim C6: `extract_skills` never raises for any *string* input
    (including the empty string) and its output never repeats a skill name
    across all categories; a `None` input, however, raises
    `AttributeError`. -/
theorem ml_extract_no_raise_nodup (t : String) :
    ml_extract_skills (some t) = .ok (ml_extract_skills_ok t) ∧
    (((ml_extract_skills_ok t).map (fun cs => cs.2)).flatten).Nodup := by
  refine ⟨rfl, ?_⟩
  have h : (ml_extract_skills_ok t) =
      SKILL_PATTERNS.map (fun cs =>
        (cs.1, cs.2.filter (fun skill => pyIn (lc skill) (lowerL (lc t))))) := rfl
  rw [h]
  have h2 : (SKILL_PATTERNS.map (fun cs =>
      (cs.1, cs.2.filter (fun skill => pyIn (lc skill) (lowerL (lc t)))))).map
        (fun cs => cs.2) =
      SKILL_PATTERNS.map (fun cs =>
        cs.2.filter (fun skill => pyIn (lc skill) (lowerL (lc t)))) := by
    rw [List.map_map]
    rfl
  rw [h2]
  exact nodup_flatten_filter _ SKILL_PATTERNS SKILL_PATTERNS_flat_nodup

/-- Counterexample to C6 as stated: on input `None` the function raises
    (`None.lower()` has no guard), embedded as the error result. -/
theorem ml_extract_none_raises :
    ml_extract_skills none = .error "AttributeError" := rfl

/-! ### `simple_bert_service.py`: the no-trained-model analysis path -/

/-- `self.all_skills` of `SimpleBERTEnhancedMLService`. -/
def all_skills : List String :=
  ["python", "javascript", "java", "react", "node.js", "sql", "git",
   "docker", "kubernetes", "aws", "azure", "machine learning", "tensorflow",
   "pytorch", "pandas", "numpy", "html", "css", "angular", "vue.js",
   "express.js", "mongodb", "postgresql", "redis", "elasticsearch",
   "jenkins", "github", "linux", "bash", "rest api", "graphql",
   "microservices", "agile", "scrum", "project management"]

/-- Embedding of `extract_skills_traditional`: substring scan over
    `all_skills`.  The final `list(set(...))` only forgets CPython set
    order; since `all_skills` has no duplicates the filtered list is
    already duplicate-free. -/
def extract_skills_traditional (resume_text : String) : List String :=
  all_skills.filter
    (fun skill => pyIn (lowerL (lc skill)) (lowerL (lc resume_text)))

def tfidf_keywords : List String :=
  ["tech", "dev", "soft", "prog", "data", "web", "api"]

/-- The term-appending loop of `extract_skills_enhanced`: each TF-IDF term
    longer than 2 characters, not yet collected, and containing one of the
    heuristic keywords is appended. -/
def addEnhancedTerms (skills : List String) (terms : List String) : List String :=
  terms.foldl (fun acc term =>
    if 2 < term.length ∧ term ∉ acc ∧
        tfidf_keywords.any (fun k => pyIn (lc k) (lc term))
      then acc ++ [term] else acc) skills

/-- Embedding of `extract_skills_enhanced` with no trained models loaded.
    The TF-IDF top terms come from scikit-learn numerics outside this
    embedding and enter as `extraTerms`; any exception in that block is
    caught by the source and leaves the list unchanged (`extraTerms = []`).
    The result is capped at 15 entries. -/
def extract_skills_enhanced (resume_text : String)
    (extraTerms : List String) : List String :=
  (addEnhancedTerms (extract_skills_traditional resume_text) extraTerms).take 15

/-- `\s*` then the `years?|yrs?` alternation of the experience regex. -/
def yearFollows (rest : List Char) : Bool :=
  let r := rest.dropWhile (fun c => c.isWhitespace)
  (lc "year").isPrefixOf r || (lc "yr").isPrefixOf r

/-- Scanner equivalent of `re.findall(r'(\d+)\s*(?:years?|yrs?)', text)`
    collecting the numeric value of each captured digit group: a maximal
    digit run followed by optional whitespace and `year`/`yr` matches
    (backtracking into a digit run can never succeed, because the character
    after a shorter digit prefix is again a digit). -/
def findYearsAux (cur : Option ℕ) : List Char → List ℕ
  | [] => []
  | c :: cs =>
    if c.isDigit then
      findYearsAux (some ((cur.getD 0) * 10 + (c.toNat - 48))) cs
    else
      match cur with
      | some n =>
        if yearFollows (c :: cs) then n :: findYearsAux none cs
        else findYearsAux none cs
      | none => findYearsAux none cs

def findYears (text : List Char) : List ℕ := findYearsAux none text

/-- Embedding of `predict_experience_traditional` in the no-trained-model
    state: the regex heuristic, `min(max(years), 10)`, default 2. -/
def predict_experience_traditional (resume_text : String) : ℕ :=
  match findYears (lowerL (lc resume_text)) with
  | [] => 2
  | y :: ys => min ((y :: ys).foldl max 0) 10

def ds_terms : List String :=
  ["data scientist", "machine learning", "ai", "analytics"]

def fe_terms : List String := ["frontend", "react", "vue", "angular", "ui"]

def be_terms : List String := ["backend", "api", "server", "database"]

def devops_terms : List String := ["devops", "kubernetes", "docker", "ci/cd"]

/-- Embedding of `classify_job_category_traditional` in the
    no-trained-model state: the keyword if/elif chain (which returns a bare
    string, not a `(category, confidence)` tuple). -/
def classify_job_category_traditional (resume_text : String) : String :=
  let low := lowerL (lc resume_text)
  if ds_terms.any (fun t => pyIn (lc t) low) then "Data Science"
  else if fe_terms.any (fun t => pyIn (lc t) low) then "Frontend Development"
  else if be_terms.any (fun t => pyIn (lc t) low) then "Backend Development"
  else if devops_terms.any (fun t => pyIn (lc t) low) then "DevOps Engineering"
  else "Software Engineering"

/-- Embedding of `calculate_match_score` in the no-trained-model state with
    the empty default `job_description` (as `analyze_resume_enhanced` calls
    it): the `if job_description:` branch is skipped and the default 75.0
    is returned. -/
def calculate_match_score_noModels (_resume_text : String) : ℚ := 75

/-- Embedding of `generate_insights`. -/
def generate_insights (skills : List String) (experience : ℕ)
    (category : String) : List String :=
  (if experience < 2 then
    ["Entry-level position - focus on building foundational skills"]
   else if experience < 5 then
    ["Mid-level experience - good time to specialize in specific technologies"]
   else
    ["Senior-level experience - consider leadership and mentoring opportunities"]) ++
  (if skills.length < 5 then
    ["Consider expanding your technical skill set"]
   else if 12 < skills.length then
    ["Strong technical skill set - highlight the most relevant ones"]
   else []) ++
  (if category = "Data Science" then
    (if !(skills.any (fun s => s ∈ (["python", "machine learning", "pandas"] : List String))) then
      ["Consider adding core data science skills like Python, ML, or Pandas"]
     else [])
   else if category = "Frontend Development" then
    (if !(skills.any (fun s => s ∈ (["react", "angular", "vue.js"] : List String))) then
      ["Modern frontend frameworks would strengthen your profile"]
     else [])
   else [])

/-- The result dict of the resume analysis; `timestamp` is `none` on the
    fallback path, which does not set that key. -/
structure AnalysisResult where
  predicted_category : String
  predicted_experience : ℕ
  extracted_skills : List String
  match_score : ℚ
  model_confidence : ℚ
  analysis_method : String
  insights : List String
  bert_enhanced : Bool
  timestamp : Option String
deriving Repr, DecidableEq

/-- Embedding of `analyze_resume_enhanced` in the state where no trained
    artifacts were loaded (`models_loaded = False`).  The category
    heuristic returns a bare string, so `isinstance(..., tuple)` is false
    and the confidence is set to the literal 0.75; nothing on this path can
    raise for a string input. -/
def analyze_resume_enhanced_noModels (resume_text : String)
    (extraTerms : List String) (now : String) : AnalysisResult :=
  let skills := extract_skills_enhanced resume_text extraTerms
  let experience := predict_experience_traditional resume_text
  let category := classify_job_category_traditional resume_text
  { predicted_category := category
    predicted_experience := experience
    extracted_skills := skills
    match_score := calculate_match_score_noModels resume_text
    model_confidence := 3 / 4
    analysis_method := "enhanced_traditional"
    insights := generate_insights skills experience category
    bert_enhanced := false
    timestamp := some now }

/-- Embedding of `get_fallback_analysis` — the result built by the
    exception handler of `analyze_resume_enhanced`. -/
def get_fallback_analysis (resume_text : String) : AnalysisResult :=
  { predicted_category := "Software Engineering"
    predicted_experience := predict_experience_traditional resume_text
    extracted_skills := extract_skills_traditional resume_text
    match_score := 70
    model_confidence := 1 / 2
    analysis_method := "fallback"
    insights := ["Basic analysis completed - enhanced features temporarily unavailable"]
    bert_enhanced := false
    timestamp := none }

/-- Amended claim C7: with no trained artifacts, analysis of any string
    never throws (the embedding is total), but the no-model path returns
    confidence 0.75 and method `enhanced_traditional`; the fixed
    0.5/`fallback` pair is produced only by the exception-path fallback
    analyzer. -/
theorem classify_no_model_result (t : String) (extra : List String)
    (now : String) :
    (analyze_resume_enhanced_noModels t extra now).model_confidence = 3 / 4 ∧
    (analyze_resume_enhanced_noModels t extra now).analysis_method =
      "enhanced_traditional" ∧
    (get_fallback_analysis t).model_confidence = 1 / 2 ∧
    (get_fallback_analysis t).analysis_method = "fallback" :=
  ⟨rfl, rfl, rfl, rfl⟩

/-- Counterexample to C7 as stated: at a concrete input in the
    no-trained-model state the classification result does not carry the
    claimed confidence 0.5 / fallback marking. -/
theorem classify_no_model_result_cex :
    (analyze_resume_enhanced_noModels
        "python developer with 3 years experience" [] "2026-01-01").model_confidence
      ≠ 1 / 2 ∧
    (analyze_resume_enhanced_noModels
        "python developer with 3 years experience" [] "2026-01-01").analysis_method
      ≠ "fallback" := by
  constructor
  · show (3 : ℚ) / 4 ≠ 1 / 2
    norm_num
  · show "enhanced_traditional" ≠ "fallback"
    decide

/-! ### `extract_skills_with_patterns`: word-boundary regex matching -/

/-- Python `\w` (ASCII fragment): letters, digits, underscore. -/
def isWordChar (c : Char) : Bool := c.isAlphanum || c == '_'

/-- The trailing `\b` of a pattern whose last character is a word
    character: end of text or a non-word character follows. -/
def endBoundary : List Char → Bool
  | [] => true
  | c :: _ => !isWordChar c

/-- Matcher for `w\b` at the current position (the leading `\b` is checked
    by the scanner): the literal, then a word boundary. -/
def checkWord (w : List Char) (rest : List Char) : Bool :=
  w.isPrefixOf rest && endBoundary (rest.drop w.length)

/-- Matcher for `w1\s*w2\b`: the `\s*` is equivalent to the maximal
    whitespace run because `w2` starts with a word (non-space) character,
    so shorter space runs always fail. -/
def checkWord2 (w1 w2 : List Char) (rest : List Char) : Bool :=
  w1.isPrefixOf rest &&
    (let r := (rest.drop w1.length).dropWhile (fun c => c.isWhitespace)
     w2.isPrefixOf r && endBoundary (r.drop w2.length))

/-- Matcher for `w\w*\b`: the greedy `\w*` absorbs the rest of the word
    run, after which the boundary holds by maximality — only the literal
    prefix test remains. -/
def checkWordStar (w : List Char) (rest : List Char) : Bool :=
  w.isPrefixOf rest

/-- Try a position-local matcher at every suffix, tracking whether the
    previous character is a word character (the leading `\b` of every
    pattern in the table, whose first character is a word character). -/
def scanSuffixes (check : List Char → Bool) : Bool → List Char → Bool
  | _, [] => false
  | prevWord, c :: cs =>
    (!prevWord && check (c :: cs)) || scanSuffixes check (isWordChar c) cs

/-- The three regex shapes appearing in the `skills_patterns` table. -/
inductive PatKind
  | word (w : String)
  | word2 (w1 w2 : String)
  | wordStar (w : String)
deriving Repr, DecidableEq

def runPat (text : List Char) : PatKind → Bool
  | .word w => scanSuffixes (checkWord (lc w)) false text
  | .word2 w1 w2 => scanSuffixes (checkWord2 (lc w1) (lc w2)) false text
  | .wordStar w => scanSuffixes (checkWordStar (lc w)) false text

/-- The `skills_patterns` dict of `extract_skills_with_patterns`; each
    entry lists the alternative branches of its regex.  Lookaheads already
    subsumed by an adjacent `\b` are dropped: `\br\b(?!\w)` ≡ `\br\b` and
    `\bjava\b(?!script)` ≡ `\bjava\b` (after a `\b` following a word
    character, the next character is non-word, so neither negative
    lookahead can fail); `olt(?:a|p)` is the two-branch alternation; note
    the source maps `olta|oltp` — not `olap` — to the name `OLAP`. -/
def skills_patterns : List (List PatKind × String) :=
  [([.word "tableau"], "Tableau"),
   ([.word2 "power" "bi"], "Power BI"),
   ([.wordStar "qlik"], "Qlik"),
   ([.word "looker"], "Looker"),
   ([.word "microstrategy"], "MicroStrategy"),
   ([.word "cognos"], "Cognos"),
   ([.word2 "business" "objects"], "Business Objects"),
   ([.word "sql"], "SQL"),
   ([.word "python"], "Python"),
   ([.word "r"], "R"),
   ([.word "java"], "Java"),
   ([.word "javascript"], "JavaScript"),
   ([.word "scala"], "Scala"),
   ([.word "sas"], "SAS"),
   ([.word "mysql"], "MySQL"),
   ([.word "postgresql"], "PostgreSQL"),
   ([.word2 "sql" "server"], "SQL Server"),
   ([.word "oracle"], "Oracle"),
   ([.word "mongodb"], "MongoDB"),
   ([.word "snowflake"], "Snowflake"),
   ([.word "redshift"], "Redshift"),
   ([.word "bigquery"], "BigQuery"),
   ([.word "aws"], "AWS"),
   ([.word "azure"], "Azure"),
   ([.word "gcp"], "GCP"),
   ([.word2 "google" "cloud"], "Google Cloud"),
   ([.word "etl"], "ETL"),
   ([.word "olta", .word "oltp"], "OLAP"),
   ([.word2 "data" "warehouse"], "Data Warehousing"),
   ([.word2 "data" "modeling"], "Data Modeling"),
   ([.word2 "data" "pipeline"], "Data Pipeline"),
   ([.word2 "data" "visualization"], "Data Visualization"),
   ([.word2 "data" "analysis"], "Data Analysis"),
   ([.word "analytics"], "Analytics"),
   ([.word "reporting"], "Reporting"),
   ([.word "dashboard"], "Dashboard"),
   ([.word "kpi"], "KPI"),
   ([.word "metrics"], "Metrics"),
   ([.word "statistics"], "Statistics"),
   ([.word "regression"], "Regression"),
   ([.word "forecasting"], "Forecasting"),
   ([.word2 "predictive" "analytics"], "Predictive Analytics"),
   ([.word "excel"], "Excel"),
   ([.word2 "pivot" "table"], "Pivot Tables"),
   ([.word "vlookup"], "VLOOKUP"),
   ([.word "git"], "Git"),
   ([.word "jira"], "Jira"),
   ([.word "docker"], "Docker"),
   ([.word "linux"], "Linux"),
   ([.word "unix"], "Unix")]

/-- Embedding of `extract_skills_with_patterns`: each skill name whose
    regex matches the (lower-cased, `re.IGNORECASE`) text is collected;
    the names in the table are pairwise distinct, so the dict-order list
    is the set the source builds. -/
def extract_skills_with_patterns (text : String) : List String :=
  let low := lowerL (lc text)
  (skills_patterns.filter (fun e => e.1.any (fun p => runPat low p))).map
    (fun e => e.2)

/-- `w` occurs in `text` delimited by word boundaries: `text = a ++ w ++ b`
    where `a` ends with a non-word character (or is empty, in a position
    whose preceding context `prevWord` is non-word) and `b` starts with a
    non-word character or is empty. -/
def standaloneFrom (w : List Char) (prevWord : Bool) (text : List Char) : Prop :=
  ∃ a b, text = a ++ w ++ b ∧
    (match a.getLast? with
     | none => prevWord = false
     | some d => isWordChar d = false) ∧
    (match b.head? with
     | none => True
     | some d => isWordChar d = false)

/-- `w` occurs in `text` as a standalone word-boundary-delimited token. -/
def standalone (w : List Char) (text : List Char) : Prop :=
  standaloneFrom w false text

theorem checkWord_iff (w : List Char) (rest : List Char) :
    checkWord w rest = true ↔
      ∃ b, rest = w ++ b ∧
        (match b.head? with
         | none => True
         | some d => isWordChar d = false) := by
  unfold checkWord
  rw [Bool.and_eq_true, List.isPrefixOf_iff_prefix]
  constructor
  · rintro ⟨⟨b, rfl⟩, hb⟩
    refine ⟨b, rfl, ?_⟩
    rw [List.drop_left] at hb
    cases b with
    | nil => trivial
    | cons d t => simpa [endBoundary, Bool.not_eq_true'] using hb
  · rintro ⟨b, rfl, hb⟩
    refine ⟨⟨b, rfl⟩, ?_⟩
    rw [List.drop_left]
    cases b with
    | nil => rfl
    | cons d t => simpa [endBoundary, Bool.not_eq_true'] using hb

theorem scan_checkWord_iff (w : List Char) (hw : w ≠ []) :
    ∀ (text : List Char) (prevWord : Bool),
      scanSuffixes (checkWord w) prevWord text = true ↔
        standaloneFrom w prevWord text := by
  intro text
  induction text with
  | nil =>
    intro prevWord
    rw [scanSuffixes]
    constructor
    · intro h
      exact absurd h (by simp)
    · rintro ⟨a, b, habs, -, -⟩
      have := congrArg List.length habs
      simp only [List.length_nil, List.length_append] at this
      have hw0 : w.length = 0 := by omega
      exact absurd (List.length_eq_zero.mp hw0) hw
  | cons c cs ih =>
    intro prevWord
    rw [scanSuffixes]
    rw [Bool.or_eq_true, Bool.and_eq_true, Bool.not_eq_true']
    rw [ih (isWordChar c)]
    constructor
    · rintro (⟨hprev, hcheck⟩ | h)
      · rcases (checkWord_iff w (c :: cs)).mp hcheck with ⟨b, heq, hb⟩
        exact ⟨[], b, by simpa using heq, hprev, hb⟩
      · rcases h with ⟨a, b, heq, ha, hb⟩
        refine ⟨c :: a, b, by simp [heq], ?_, hb⟩
        cases a with
        | nil => simpa using ha
        | cons a0 as => simpa [List.getLast?_cons_cons] using ha
    · rintro ⟨a, b, heq, ha, hb⟩
      cases a with
      | nil =>
        left
        refine ⟨by simpa using ha,
          (checkWord_iff w (c :: cs)).mpr ⟨b, by simpa using heq, hb⟩⟩
      | cons a0 as =>
        right
        have hc : a0 = c ∧ cs = as ++ w ++ b := by
          constructor
          · have := congrArg (fun l => l.head?) heq
            simpa using this.symm
          · have := congrArg List.tail heq
            simpa using this
        refine ⟨as, b, hc.2, ?_, hb⟩
        cases as with
        | nil =>
          have : a0 = c := hc.1
          subst this
          simpa using ha
        | cons a1 at1 => simpa [List.getLast?_cons_cons] using ha

/-- For an entry of the table carrying a plain `\b w \b` pattern (and whose
    name no other entry produces), the name is reported iff `w` occurs in
    the text delimited by word boundaries. -/
theorem extract_word_pattern_iff (w name text : String)
    (hw : lc w ≠ [])
    (hmem : ([PatKind.word w], name) ∈ skills_patterns)
    (huniq : ∀ e ∈ skills_patterns, e.2 = name → e = ([PatKind.word w], name)) :
    name ∈ extract_skills_with_patterns text ↔
      standalone (lc w) (lowerL (lc text)) := by
  unfold extract_skills_with_patterns
  constructor
  · intro h
    rcases List.mem_map.mp h with ⟨e, hef, he2⟩
    have he := huniq e (List.mem_of_mem_filter hef) he2
    subst he
    have hp := (List.mem_filter.mp hef).2
    simp only [runPat, List.any_cons, List.any_nil, Bool.or_false] at hp
    exact (scan_checkWord_iff (lc w) hw (lowerL (lc text)) false).mp hp
  · intro h
    refine List.mem_map.mpr
      ⟨([PatKind.word w], name), List.mem_filter.mpr ⟨hmem, ?_⟩, rfl⟩
    simp only [runPat, List.any_cons, List.any_nil, Bool.or_false]
    exact (scan_checkWord_iff (lc w) hw (lowerL (lc text)) false).mpr h

/-- Claim C8: pattern extraction is word-boundary aware — a single-word
    pattern's skill name is reported iff the word occurs in the text
    delimited by word boundaries (a standalone token, never a substring of
    a longer word); in particular the single-letter skill `R` is reported
    for no text unless `r` stands alone: not for "HR" or "for", but for a
    standalone "r". -/
theorem pattern_word_boundary :
    (∀ (w name text : String),
      lc w ≠ [] →
      ([PatKind.word w], name) ∈ skills_patterns →
      (∀ e ∈ skills_patterns, e.2 = name → e = ([PatKind.word w], name)) →
      (name ∈ extract_skills_with_patterns text ↔
        standalone (lc w) (lowerL (lc text)))) ∧
    (∀ text : String, "R" ∈ extract_skills_with_patterns text ↔
      standalone (lc "r") (lowerL (lc text))) ∧
    "R" ∉ extract_skills_with_patterns "HR" ∧
    "R" ∉ extract_skills_with_patterns "for" ∧
    "R" ∈ extract_skills_with_patterns "r" := by
  refine ⟨fun w name text => extract_word_pattern_iff w name text, ?_,
    by decide, by decide, by decide⟩
  intro text
  exact extract_word_pattern_iff "r" "R" text (by decide) (by decide) (by decide)

/-- Witness for C8: the hypotheses of its universal part are satisfiable,
    e.g. by the SQL entry at a concrete text. -/
theorem pattern_word_boundary_witness :
    (lc "sql" ≠ [] ∧ ([PatKind.word "sql"], "SQL") ∈ skills_patterns ∧
      (∀ e ∈ skills_patterns, e.2 = "SQL" → e = ([PatKind.word "sql"], "SQL"))) ∧
    ("SQL" ∈ extract_skills_with_patterns "knows sql and excel" ↔
      standalone (lc "sql") (lowerL (lc "knows sql and excel"))) :=
  ⟨⟨by decide, by decide, by decide⟩,
    pattern_word_boundary.1 "sql" "SQL" "knows sql and excel"
      (by decide) (by decide) (by decide)⟩

end LakshayAI
